import Mathlib

/-!
Verification development for the csafx dataset synchronization engine.

The Go sources (pkg/csaf/download/download.go and pkg/csaf/cache) are shallowly
embedded below.  Machine-level details are modelled as follows:

* `time.Time` values are modelled as `Int` seconds since the Unix epoch
  (comparisons `Before`/`After` become `<`; the claims about the 21-day
  freshness window are stated in seconds).
* HTTP traffic is modelled by an oracle `Remote : String → HttpResult`
  mapping a URL to either a transport error or a response with a status
  code, a body, and a flag saying whether reading the body succeeds.
* The local filesystem state of the single dataset directory is a
  `DirState` (the optional metadata record plus a relative-path ↦ content
  file map); filesystem create/write/remove operations are modelled as
  always succeeding.  A `SyncState` additionally records the trace of URLs
  fetched and of directory-creation calls, so that "no fetch happened" and
  "nothing was written" are observable.
* Fallible Go functions return `SyncState × Except Err α`: the state is
  threaded through even on error, exactly as the on-disk state persists
  when the Go function returns an error.
-/

namespace Csafx

/-- Models `strings.HasSuffix s suffix` from the Go standard library. -/
def strHasSuffix (s suffix : String) : Bool :=
  decide (suffix.data.length ≤ s.data.length ∧
    s.data.drop (s.data.length - suffix.data.length) = suffix.data)

/-- Models `strings.TrimSuffix s suffix`: removes one trailing occurrence
of `suffix`, if present. -/
def goTrimSuffix (s suffix : String) : String :=
  if strHasSuffix s suffix then ⟨s.data.take (s.data.length - suffix.data.length)⟩ else s

/-- Models `strings.HasPrefix s pre` from the Go standard library. -/
def strHasStart (s pre : String) : Bool :=
  decide (s.data.take pre.data.length = pre.data)

/-- Models `strings.TrimPrefix s pre`: removes one leading occurrence of
`pre`, if present. -/
def goTrimStart (s pre : String) : String :=
  if strHasStart s pre then ⟨s.data.drop pre.data.length⟩ else s

/-- Models `strings.TrimSpace` (restricted to ASCII whitespace, which is
all the claims exercise). -/
def goTrimSpace (s : String) : String :=
  ⟨((s.data.dropWhile Char.isWhitespace).reverse.dropWhile Char.isWhitespace).reverse⟩

/-- Split at every occurrence of the separator character; models
`strings.Split s (String.mk [sep])` for a one-character separator. -/
def splitOnChar (sep : Char) : List Char → List (List Char)
  | [] => [[]]
  | c :: rest =>
    match splitOnChar sep rest with
    | [] => [[c]]
    | cur :: more => if c = sep then [] :: cur :: more else (c :: cur) :: more

/-- `splitOnChar` lifted to `String`. -/
def strSplitOnChar (sep : Char) (s : String) : List String :=
  (splitOnChar sep s.data).map (fun cs => ⟨cs⟩)

/-- Value of a decimal digit character. -/
def digitVal (c : Char) : Nat := c.toNat - 48

/-- Two decimal digits, or `none` if either character is not a digit. -/
def digit2 (a b : Char) : Option Nat :=
  if a.isDigit ∧ b.isDigit then some (digitVal a * 10 + digitVal b) else none

/-- Four decimal digits, or `none` if any character is not a digit. -/
def digit4 (a b c d : Char) : Option Nat :=
  if a.isDigit ∧ b.isDigit ∧ c.isDigit ∧ d.isDigit then
    some (((digitVal a * 10 + digitVal b) * 10 + digitVal c) * 10 + digitVal d)
  else none

def isLeapYear (y : Int) : Bool :=
  decide (y % 4 = 0 ∧ (y % 100 ≠ 0 ∨ y % 400 = 0))

def daysInMonth (y : Int) (m : Nat) : Nat :=
  if m = 2 then (if isLeapYear y then 29 else 28)
  else if m = 4 ∨ m = 6 ∨ m = 9 ∨ m = 11 then 30 else 31

/-- Days since 1970-01-01 of the proleptic-Gregorian civil date `y-m-d`
(standard "days from civil" computation). -/
def daysFromCivil (y : Int) (m d : Nat) : Int :=
  let yAdj : Int := if m ≤ 2 then y - 1 else y
  let era : Int := (if 0 ≤ yAdj then yAdj else yAdj - 399) / 400
  let yoe : Int := yAdj - era * 400
  let mp : Int := if m ≤ 2 then (m : Int) + 9 else (m : Int) - 3
  let doy : Int := (153 * mp + 2) / 5 + (d : Int) - 1
  let doe : Int := yoe * 365 + yoe / 4 - yoe / 100 + doy
  era * 146097 + doe - 719468

/-- Time-zone designator of an RFC 3339 timestamp: `Z`, or `±hh:mm`;
returns the offset east of UTC in seconds. -/
def parseTZ : List Char → Option Int
  | ['Z'] => some 0
  | [sign, o1, o2, ':', o3, o4] =>
    match digit2 o1 o2, digit2 o3 o4 with
    | some hh, some mm =>
      if (sign = '+' ∨ sign = '-') ∧ hh ≤ 23 ∧ mm ≤ 59 then
        some ((if sign = '-' then (-1 : Int) else 1) * ((hh : Int) * 3600 + (mm : Int) * 60))
      else none
    | _, _ => none
  | _ => none

/-- Optional fractional seconds (ignored, as Go truncates them when the
layout has none) followed by a time-zone designator. -/
def parseFracTZ : List Char → Option Int
  | '.' :: rest =>
    if (rest.takeWhile Char.isDigit).isEmpty then none
    else parseTZ (rest.dropWhile Char.isDigit)
  | rest => parseTZ rest

/-- Models `time.Parse(time.RFC3339, s)`: accepts
`YYYY-MM-DDTHH:MM:SS[.fff](Z|±hh:mm)` with field range checks, returning
seconds since the Unix epoch. -/
def parseRFC3339 (s : String) : Option Int :=
  match s.data with
  | y1 :: y2 :: y3 :: y4 :: '-' :: m1 :: m2 :: '-' :: d1 :: d2 :: 'T' ::
      h1 :: h2 :: ':' :: n1 :: n2 :: ':' :: s1 :: s2 :: rest =>
    match digit4 y1 y2 y3 y4, digit2 m1 m2, digit2 d1 d2,
        digit2 h1 h2, digit2 n1 n2, digit2 s1 s2, parseFracTZ rest with
    | some yy, some mo, some dd, some hh, some mi, some ss, some off =>
      if 1 ≤ mo ∧ mo ≤ 12 ∧ 1 ≤ dd ∧ dd ≤ daysInMonth (yy : Int) mo ∧
          hh ≤ 23 ∧ mi ≤ 59 ∧ ss ≤ 59 then
        some (daysFromCivil (yy : Int) mo dd * 86400 +
          (hh : Int) * 3600 + (mi : Int) * 60 + (ss : Int) - off)
      else none
    | _, _, _, _, _, _, _ => none
  | _ => none

/-- `SyncMetadata` from pkg/csaf/cache: `{last_sync, source_url}`. -/
structure SyncMetadata where
  lastSync : Int
  sourceURL : String
deriving Repr, DecidableEq

/-- Error values; constructors mirror the distinct `fmt.Errorf` sites the
claims distinguish.  `wrap` models `fmt.Errorf("...: %w", err)`. -/
inductive Err where
  | transport (url : String)
  | httpStatus (url : String) (status : Nat)
  | readBody (url : String)
  | csvFieldCount
  | timestampParse (s : String)
  | copyFailed (path : String)
  | decompress (path : String)
  | openArchive (path : String)
  | noFilesFound
  | wrap (ctx : String) (e : Err)
deriving Repr, DecidableEq

/-- Models `encoding/csv` `Reader.ReadAll` for inputs without quote
characters (all change logs in this development are quote-free): lines are
separated by newlines (a trailing CR is stripped), fully blank lines are
skipped, fields are comma-separated, and — as with the default
`FieldsPerRecord = 0` — every record must have the same number of fields
as the first one, otherwise the whole read fails with `ErrFieldCount`. -/
def csvReadAll (data : String) : Except Err (List (List String)) :=
  let rows := ((strSplitOnChar '\n' data).map (fun l => goTrimSuffix l "\r")).filter (· ≠ "")
  let records := rows.map (strSplitOnChar ',')
  match records with
  | [] => .ok []
  | r0 :: _ =>
    if records.all (fun r => decide (r.length = r0.length)) then .ok records
    else .error .csvFieldCount

/-- Assignment `m[k] = v` on a Go map modelled as an association list:
overwrites the existing entry for `k` or appends a new one. -/
def mapInsert (m : List (String × Int)) (k : String) (v : Int) : List (String × Int) :=
  if m.any (fun e => decide (e.1 = k)) then
    m.map (fun e => if e.1 = k then (k, v) else e)
  else m ++ [(k, v)]

/-- Go map lookup `m[k]`. -/
def mapLookup : List (String × Int) → String → Option Int
  | [], _ => none
  | (k, v) :: rest, p => if k = p then some v else mapLookup rest p

/-- The record loop of `ParseChangesCSV`: skip blank records and records
with fewer than two fields, fail on an unparseable timestamp, otherwise
store `changes[record[0]] = timestamp`. -/
def parseChangesLoop : List (List String) → List (String × Int) →
    Except Err (List (String × Int))
  | [], changes => .ok changes
  | record :: rest, changes =>
    if record.length = 0 ∨ (record.length = 1 ∧ goTrimSpace (record.headD "") = "") then
      parseChangesLoop rest changes
    else if record.length < 2 then
      parseChangesLoop rest changes
    else
      match parseRFC3339 (record.getD 1 "") with
      | none => .error (.timestampParse (record.getD 1 ""))
      | some t => parseChangesLoop rest (mapInsert changes (record.getD 0 "") t)

/-- `ParseChangesCSV` from download.go. -/
def ParseChangesCSV (data : String) : Except Err (List (String × Int)) :=
  match csvReadAll data with
  | .error e => .error (.wrap "failed to parse changes.csv" e)
  | .ok records => parseChangesLoop records []

/-- HTTP outcome for one URL: a transport error, or a response with a
status code, a body, and a flag saying whether reading the body to the
end succeeds. -/
inductive HttpResult where
  | transportError
  | response (status : Nat) (body : String) (bodyOk : Bool)
deriving Repr, DecidableEq

/-- The remote server: maps each URL to its (deterministic) outcome. -/
def Remote := String → HttpResult

/-- On-disk state of one dataset directory: the optional metadata record
and the files (relative path ↦ content). -/
structure DirState where
  metadata : Option SyncMetadata
  files : List (String × String)
deriving Repr, DecidableEq

/-- Dataset directory state plus observation traces: every URL passed to
`http.Get`, and one marker per `os.MkdirAll` call made for a file. -/
structure SyncState where
  dir : DirState
  fetchTrace : List String
  mkdirTrace : List String
deriving Repr, DecidableEq

/-- `os.Create` + `io.Copy` writing `content` to `path`: overwrite the
existing entry or append a new one. -/
def setFile (fs : List (String × String)) (path content : String) :
    List (String × String) :=
  if fs.any (fun e => decide (e.1 = path)) then
    fs.map (fun e => if e.1 = path then (path, content) else e)
  else fs ++ [(path, content)]

def lookupFile : List (String × String) → String → Option String
  | [], _ => none
  | (k, v) :: rest, p => if k = p then some v else lookupFile rest p

/-- `os.Remove path`. -/
def removeFile (fs : List (String × String)) (path : String) : List (String × String) :=
  fs.filter (fun e => decide (e.1 ≠ path))

/-- `fetchResource` from download.go: performs an HTTP GET and returns
`(body, notFound)`.  A 404 is a non-error outcome iff `allowNotFound`;
any other non-200 status or a transport/read failure is an error. -/
def fetchResource (remote : Remote) (url : String) (allowNotFound : Bool)
    (st : SyncState) : SyncState × Except Err (String × Bool) :=
  let st := { st with fetchTrace := st.fetchTrace ++ [url] }
  match remote url with
  | .transportError => (st, .error (.transport url))
  | .response status body bodyOk =>
    if status = 404 ∧ allowNotFound then (st, .ok ("", true))
    else if status ≠ 200 then (st, .error (.httpStatus url status))
    else if bodyOk then (st, .ok (body, false))
    else (st, .error (.readBody url))

/-- `GetCSAFArchive` from download.go.  NOTE: exactly as in the source,
the HTTP status code of the response is never inspected; the body is
written to `destination` for any status. -/
def GetCSAFArchive (remote : Remote) (url destination : String)
    (st : SyncState) : SyncState × Except Err Unit :=
  let st := { st with fetchTrace := st.fetchTrace ++ [url] }
  match remote url with
  | .transportError => (st, .error (.wrap "failed to archive file" (.transport url)))
  | .response _status body bodyOk =>
    let st := { st with dir := { st.dir with files := setFile st.dir.files destination "" } }
    if bodyOk then
      ({ st with dir := { st.dir with files := setFile st.dir.files destination body } },
        .ok ())
    else (st, .error (.wrap "failed to save file" (.copyFailed destination)))

/-- `ExtractCSAFArchive` from download.go, with the external zstd+tar
codec abstracted as `decode` (archive body ↦ unpacked entries, `none` on
a malformed archive); the intermediate `csaf_advisories.tar` file is
created and removed within the call and is not modelled separately. -/
def ExtractCSAFArchive (decode : String → Option (List (String × String)))
    (archivePath : String) (st : SyncState) : SyncState × Except Err Unit :=
  match lookupFile st.dir.files archivePath with
  | none => (st, .error (.openArchive archivePath))
  | some body =>
    match decode body with
    | none => (st, .error (.decompress archivePath))
    | some entries =>
      ({ st with dir := { st.dir with
          files := entries.foldl (fun fs e => setFile fs e.1 e.2) st.dir.files } }, .ok ())

/-- The request URL built for one file in `IndividualFiles`:
`strings.TrimSuffix(baseURL, "/") + "/" + strings.TrimPrefix(filePath, "/")`. -/
def buildFileURL (baseURL filePath : String) : String :=
  goTrimSuffix baseURL "/" ++ "/" ++ goTrimStart filePath "/"

/-- The per-file loop of `IndividualFiles`: skip blank paths; for each
remaining path create the parent directory, fetch the built URL, fail on
a transport error or non-200 status, and write the body to the local
file. -/
def individualFilesLoop (remote : Remote) (baseURL : String) :
    List String → SyncState → SyncState × Except Err Unit
  | [], st => (st, .ok ())
  | fp :: rest, st =>
    if goTrimSpace fp = "" then individualFilesLoop remote baseURL rest st
    else
      let fileURL := buildFileURL baseURL fp
      let st := { st with mkdirTrace := st.mkdirTrace ++ [fp] }
      let st := { st with fetchTrace := st.fetchTrace ++ [fileURL] }
      match remote fileURL with
      | .transportError => (st, .error (.wrap "failed to download" (.transport fileURL)))
      | .response status body bodyOk =>
        if status ≠ 200 then (st, .error (.httpStatus fileURL status))
        else
          let st := { st with dir := { st.dir with files := setFile st.dir.files fp "" } }
          if bodyOk then
            individualFilesLoop remote baseURL rest
              { st with dir := { st.dir with files := setFile st.dir.files fp body } }
          else (st, .error (.wrap "failed to save file" (.copyFailed fp)))

/-- `IndividualFiles` from download.go (the `targetDir` argument of the
source is the dataset directory, which is the implicit subject of
`SyncState`; local paths are therefore keyed by the relative file path). -/
def IndividualFiles (remote : Remote) (baseURL : String) (filePaths : List String)
    (st : SyncState) : SyncState × Except Err Unit :=
  if filePaths.length = 0 then (st, .ok ())
  else individualFilesLoop remote baseURL filePaths st

/-- The changed-file set computed in `PerformIncrementalUpdate`: paths of
the parsed change log whose timestamp satisfies
`timestamp.After(lastSync)`. -/
def changedFileSet (allChanges : List (String × Int)) (lastSync : Int) : List String :=
  (allChanges.filter (fun e => decide (lastSync < e.2))).map Prod.fst

/-- `PerformIncrementalUpdate` from download.go. -/
def PerformIncrementalUpdate (remote : Remote) (directoryURL : String)
    (lastSync : Int) (st : SyncState) : SyncState × Except Err Unit :=
  let changesURL := goTrimSuffix directoryURL "/" ++ "/changes.csv"
  match fetchResource remote changesURL false st with
  | (st, .error e) => (st, .error (.wrap "failed to get changes.csv" e))
  | (st, .ok (changesData, _)) =>
    match ParseChangesCSV changesData with
    | .error e => (st, .error (.wrap "failed to parse changes.csv" e))
    | .ok allChanges =>
      let changedFiles := changedFileSet allChanges lastSync
      if changedFiles.length = 0 then (st, .ok ())
      else IndividualFiles remote directoryURL changedFiles st

/-- Characters kept unchanged by the sanitization regex `[^a-zA-Z0-9._-]`. -/
def isSafeChar (c : Char) : Bool :=
  c.isAlpha || c.isDigit || decide (c = '.') || decide (c = '_') || decide (c = '-')

/-- First regex step of `urlToDirectoryName`: every unsafe character
becomes an underscore. -/
def replaceUnsafe (cs : List Char) : List Char :=
  cs.map (fun c => if isSafeChar c then c else '_')

/-- Second regex step of `urlToDirectoryName`: collapse each run of
underscores to a single one. -/
def collapseUnderscores : List Char → List Char
  | [] => []
  | [c] => [c]
  | a :: b :: rest =>
    if a = '_' ∧ b = '_' then collapseUnderscores (b :: rest)
    else a :: collapseUnderscores (b :: rest)

/-- `strings.Trim(s, "_")`: drop leading and trailing underscores. -/
def trimUnderscores (cs : List Char) : List Char :=
  ((cs.dropWhile (fun c => decide (c = '_'))).reverse.dropWhile
    (fun c => decide (c = '_'))).reverse

/-- `urlToDirectoryName` from download.go, applied to the `Host` and
`Path` components produced by `url.Parse` (URL-component splitting
belongs to the external `net/url` library). -/
def urlToDirectoryName (host path : String) : String :=
  ⟨trimUnderscores (collapseUnderscores (replaceUnsafe (host ++ path).data))⟩

/-- The listing-fallback branch of `FromDirectoryURL`: fetch `index.txt`,
split it into trimmed nonblank lines, fail with "no files found" if there
are none, otherwise drive `IndividualFiles` over every listed path and
persist fresh metadata. -/
def listingFallback (remote : Remote) (now : Int) (directoryURL : String)
    (st : SyncState) : SyncState × Except Err Unit :=
  let indexURL := goTrimSuffix directoryURL "/" ++ "/index.txt"
  match fetchResource remote indexURL false st with
  | (st, .error e) => (st, .error (.wrap "failed to fetch index.txt" e))
  | (st, .ok (data, _)) =>
    let files := ((strSplitOnChar '\n' data).map goTrimSpace).filter (· ≠ "")
    if files.length = 0 then (st, .error .noFilesFound)
    else
      match IndividualFiles remote directoryURL files st with
      | (st, .error e) => (st, .error (.wrap "failed to download individual files" e))
      | (st, .ok _) =>
        ({ st with dir := { st.dir with metadata := some ⟨now, directoryURL⟩ } }, .ok ())

/-- The archive branch of `FromDirectoryURL`: download `archive.tar.zst`,
extract it, remove it, persist fresh metadata. -/
def archiveSync (remote : Remote) (decode : String → Option (List (String × String)))
    (now : Int) (directoryURL archiveURL : String) (st : SyncState) :
    SyncState × Except Err Unit :=
  let archivePath := "archive.tar.zst"
  match GetCSAFArchive remote archiveURL archivePath st with
  | (st, .error e) => (st, .error (.wrap "failed to download archive" e))
  | (st, .ok _) =>
    match ExtractCSAFArchive decode archivePath st with
    | (st, .error e) => (st, .error (.wrap "failed to extract archive" e))
    | (st, .ok _) =>
      let st := { st with dir := { st.dir with files := removeFile st.dir.files archivePath } }
      ({ st with dir := { st.dir with metadata := some ⟨now, directoryURL⟩ } }, .ok ())

/-- Seconds in the fixed three-week freshness window
(`3 * 7 * 24 * time.Hour`). -/
def threeWeeksSecs : Int := 3 * 7 * 24 * 3600

/-- `cache.IsValidCache`: takes the current time and the result of
`LoadSyncMetadata` (read error, absent, or a record) and reproduces

```
threeWeeksAgo := time.Now().Add(-3 * 7 * 24 * time.Hour)
if metadata.LastSync.Before(threeWeeksAgo) { return false, metadata, nil }
return true, metadata, nil
```
-/
def IsValidCache (now : Int) (loaded : Except Err (Option SyncMetadata)) :
    Except Err (Bool × Option SyncMetadata) :=
  match loaded with
  | .error e => .error e
  | .ok none => .ok (false, none)
  | .ok (some metadata) =>
    if metadata.lastSync < now - threeWeeksSecs then .ok (false, some metadata)
    else .ok (true, some metadata)

/-- The full-download branch of `FromDirectoryURL` (cache absent or
stale), entered after the dataset directory has been cleared and
recreated: probe for `archive_latest.txt` (404 allowed), then either the
archive branch or the listing fallback. -/
def fullSync (remote : Remote) (decode : String → Option (List (String × String)))
    (now : Int) (directoryURL : String) (st : SyncState) :
    SyncState × Except Err Unit :=
  let archiveLatestURL := goTrimSuffix directoryURL "/" ++ "/archive_latest.txt"
  match fetchResource remote archiveLatestURL true st with
  | (st, .error e) => (st, .error (.wrap "failed to fetch archive_latest.txt" e))
  | (st, .ok (data, notFound)) =>
    let archiveURL := if notFound then ""
      else goTrimSuffix directoryURL "/" ++ "/" ++ goTrimSpace data
    if archiveURL ≠ "" then archiveSync remote decode now directoryURL archiveURL st
    else listingFallback remote now directoryURL st

/-- `FromDirectoryURL` from download.go: the sync orchestrator for one
directory URL.  `cache.EnsureCachePath` and the `os.MkdirAll` /
`os.RemoveAll` calls are modelled as succeeding (`RemoveAll` +
recreation is the reset of the dataset directory, deleting its metadata
record and files); `cache.SaveSyncMetadata` always succeeds; both
`time.Now()` calls are the parameter `now`. -/
def FromDirectoryURL (remote : Remote)
    (decode : String → Option (List (String × String))) (now : Int)
    (directoryURL : String) (st : SyncState) : SyncState × Except Err Unit :=
  match IsValidCache now (.ok st.dir.metadata) with
  | .error e => (st, .error (.wrap "failed to check cache validity" e))
  | .ok (true, some metadata) =>
    (match PerformIncrementalUpdate remote directoryURL metadata.lastSync st with
     | (st, .error e) => (st, .error (.wrap "incremental update failed" e))
     | (st, .ok _) =>
       ({ st with dir := { st.dir with metadata := some ⟨now, directoryURL⟩ } }, .ok ()))
  | .ok (_, _) =>
    fullSync remote decode now directoryURL
      { st with dir := { metadata := none, files := [] } }

/-- C4: cache validity is decided by the fixed 21-day window with an
exclusive-stale boundary: a present record is valid iff
`now - lastSync ≤ 21 days`; the record aged exactly 21 days is valid, one
second older is stale (and still returned); an absent record yields
`(false, absent)`. -/
theorem isValidCache_window (now : Int) (md : SyncMetadata) :
    IsValidCache now (.ok none) = .ok (false, none) ∧
    IsValidCache now (.ok (some md)) =
      .ok (decide (now - md.lastSync ≤ threeWeeksSecs), some md) ∧
    IsValidCache now (.ok (some { md with lastSync := now - threeWeeksSecs })) =
      .ok (true, some { md with lastSync := now - threeWeeksSecs }) ∧
    IsValidCache now (.ok (some { md with lastSync := now - threeWeeksSecs - 1 })) =
      .ok (false, some { md with lastSync := now - threeWeeksSecs - 1 }) := by
  refine ⟨rfl, ?_, ?_, ?_⟩
  · simp only [IsValidCache, threeWeeksSecs]
    by_cases h : md.lastSync < now - (3 * 7 * 24 * 3600 : Int)
    · rw [if_pos h]
      have hd : decide (now - md.lastSync ≤ (3 * 7 * 24 * 3600 : Int)) = false := by
        simp only [decide_eq_false_iff_not]; omega
      rw [hd]
    · rw [if_neg h]
      have hd : decide (now - md.lastSync ≤ (3 * 7 * 24 * 3600 : Int)) = true := by
        simp only [decide_eq_true_eq]; omega
      rw [hd]
  · simp only [IsValidCache, threeWeeksSecs]
    rw [if_neg (by omega)]
  · simp only [IsValidCache, threeWeeksSecs]
    rw [if_pos (by omega)]

/-- All trailing slashes removed; used to express the spec's "exactly one
slash between base and path" normal form. -/
def stripTrailingSlashes (s : String) : String :=
  ⟨(s.data.reverse.dropWhile (fun c => decide (c = '/'))).reverse⟩

/-- All leading slashes removed. -/
def stripLeadingSlashes (s : String) : String :=
  ⟨s.data.dropWhile (fun c => decide (c = '/'))⟩

/-- The join the spec describes for the listing fetch strategy: the base
and the path separated by exactly one slash, regardless of how many
trailing/leading slashes either side carries. -/
def oneSlashJoin (base p : String) : String :=
  stripTrailingSlashes base ++ "/" ++ stripLeadingSlashes p

/-- `true` iff the character list contains two consecutive underscores. -/
def hasRun : List Char → Bool
  | [] => false
  | [_] => false
  | a :: b :: rest => (decide (a = '_') && decide (b = '_')) || hasRun (b :: rest)

theorem hasRun_tail {c : Char} {t : List Char} (h : hasRun (c :: t) = false) :
    hasRun t = false := by
  cases t with
  | nil => rfl
  | cons d t2 =>
    simp only [hasRun, Bool.or_eq_false_iff] at h
    exact h.2

theorem hasRun_eq_false_iff : ∀ cs : List Char,
    hasRun cs = false ↔ cs.Chain' (fun a b => ¬(a = '_' ∧ b = '_'))
  | [] => by simp [hasRun]
  | [c] => by simp [hasRun]
  | a :: b :: rest => by
    rw [List.chain'_cons, ← hasRun_eq_false_iff (b :: rest)]
    simp only [hasRun, Bool.or_eq_false_iff, Bool.and_eq_false_iff,
      decide_eq_false_iff_not]
    tauto

theorem hasRun_reverse_eq_false {cs : List Char} (h : hasRun cs = false) :
    hasRun cs.reverse = false := by
  rw [hasRun_eq_false_iff] at h ⊢
  rw [List.chain'_reverse]
  exact List.Chain'.imp (fun a b hab hc => hab ⟨hc.2, hc.1⟩) h

theorem hasRun_dropWhile (p : Char → Bool) : ∀ cs : List Char,
    hasRun cs = false → hasRun (cs.dropWhile p) = false
  | [] => by simp [List.dropWhile]
  | c :: rest => by
    intro h
    rw [List.dropWhile_cons]
    by_cases hc : p c
    · rw [if_pos hc]
      exact hasRun_dropWhile p rest (hasRun_tail h)
    · rw [if_neg hc]; exact h

theorem collapse_cons : ∀ (b : Char) (rest : List Char),
    ∃ t, collapseUnderscores (b :: rest) = b :: t
  | _, [] => ⟨[], rfl⟩
  | b, c :: rest => by
    simp only [collapseUnderscores]
    by_cases h : b = '_' ∧ c = '_'
    · rw [if_pos h]
      obtain ⟨t, ht⟩ := collapse_cons c rest
      exact ⟨t, by rw [ht, h.1, h.2]⟩
    · rw [if_neg h]
      exact ⟨collapseUnderscores (c :: rest), rfl⟩

theorem collapse_noRun : ∀ cs : List Char, hasRun (collapseUnderscores cs) = false
  | [] => rfl
  | [_] => rfl
  | a :: b :: rest => by
    simp only [collapseUnderscores]
    by_cases hab : a = '_' ∧ b = '_'
    · rw [if_pos hab]
      exact collapse_noRun (b :: rest)
    · rw [if_neg hab]
      obtain ⟨t, ht⟩ := collapse_cons b rest
      have h2 : hasRun (b :: t) = false := ht ▸ collapse_noRun (b :: rest)
      have h1 : (decide (a = '_') && decide (b = '_')) = false := by
        simp only [Bool.and_eq_false_iff, decide_eq_false_iff_not]
        tauto
      rw [ht]
      simp only [hasRun, h1, h2, Bool.or_self]

theorem collapse_all (p : Char → Bool) : ∀ cs : List Char,
    cs.all p = true → (collapseUnderscores cs).all p = true
  | [] => by simp [collapseUnderscores]
  | [c] => by simp [collapseUnderscores]
  | a :: b :: rest => by
    intro h
    simp only [List.all_cons, Bool.and_eq_true] at h
    simp only [collapseUnderscores]
    by_cases hab : a = '_' ∧ b = '_'
    · rw [if_pos hab]
      exact collapse_all p (b :: rest) (by simp only [List.all_cons, Bool.and_eq_true]; exact h.2)
    · rw [if_neg hab]
      simp only [List.all_cons, Bool.and_eq_true]
      exact ⟨h.1, collapse_all p (b :: rest)
        (by simp only [List.all_cons, Bool.and_eq_true]; exact h.2)⟩

theorem all_of_dropWhile (p q : Char → Bool) (cs : List Char) (h : cs.all p = true) :
    (cs.dropWhile q).all p = true := by
  rw [List.all_eq_true] at h ⊢
  exact fun x hx => h x ((cs.dropWhile_sublist q).mem hx)

theorem all_of_reverse (p : Char → Bool) (cs : List Char) (h : cs.all p = true) :
    cs.reverse.all p = true := by
  rw [List.all_eq_true] at h ⊢
  exact fun x hx => h x (List.mem_reverse.mp hx)

theorem head?_dropWhile_not (p : Char → Bool) : ∀ (cs : List Char) (c : Char),
    (cs.dropWhile p).head? = some c → p c = false
  | [], c => by simp [List.dropWhile]
  | d :: rest, c => by
    rw [List.dropWhile_cons]
    by_cases h : p d
    · rw [if_pos h]
      exact head?_dropWhile_not p rest c
    · rw [if_neg h]
      intro hc
      simp only [List.head?_cons, Option.some.injEq] at hc
      subst hc
      exact Bool.eq_false_iff.mpr h
  termination_by cs => cs.length

theorem getLast?_dropWhile (p : Char → Bool) : ∀ cs : List Char,
    cs.dropWhile p ≠ [] → (cs.dropWhile p).getLast? = cs.getLast?
  | [] => by simp
  | d :: rest => by
    rw [List.dropWhile_cons]
    by_cases h : p d
    · rw [if_pos h]
      intro hne
      rw [getLast?_dropWhile p rest hne]
      have hrest : rest ≠ [] := by
        intro h0
        rw [h0] at hne
        simp [List.dropWhile] at hne
      obtain ⟨x, t, rfl⟩ := List.exists_cons_of_ne_nil hrest
      rw [List.getLast?_cons_cons]
    · rw [if_neg h]
      intro _
      rfl
  termination_by cs => cs.length

theorem replaceUnsafe_all_safe (cs : List Char) :
    (replaceUnsafe cs).all isSafeChar = true := by
  rw [replaceUnsafe, List.all_map, List.all_eq_true]
  intro x _
  simp only [Function.comp]
  by_cases hx : isSafeChar x
  · rw [if_pos hx]; exact hx
  · rw [if_neg hx]; decide

/-- C9: for every URL (given by the host and path components produced by
`url.Parse`), the derived local directory name contains only characters
from `[a-zA-Z0-9._-]`, has no run of consecutive underscores, and has no
leading or trailing underscore.  (It is a Lean function of the URL, hence
pure and deterministic.) -/
theorem urlToDirectoryName_sanitized (host path : String) :
    (urlToDirectoryName host path).data.all isSafeChar = true ∧
    hasRun (urlToDirectoryName host path).data = false ∧
    (∀ c, (urlToDirectoryName host path).data.head? = some c → c ≠ '_') ∧
    (∀ c, (urlToDirectoryName host path).data.getLast? = some c → c ≠ '_') := by
  refine ⟨?_, ?_, ?_, ?_⟩
  · show (trimUnderscores (collapseUnderscores (replaceUnsafe (host ++ path).data))).all
      isSafeChar = true
    unfold trimUnderscores
    apply all_of_reverse
    apply all_of_dropWhile
    apply all_of_reverse
    apply all_of_dropWhile
    exact collapse_all _ _ (replaceUnsafe_all_safe _)
  · show hasRun (trimUnderscores (collapseUnderscores (replaceUnsafe (host ++ path).data))) =
      false
    unfold trimUnderscores
    apply hasRun_reverse_eq_false
    apply hasRun_dropWhile
    apply hasRun_reverse_eq_false
    apply hasRun_dropWhile
    exact collapse_noRun _
  · intro c hc
    have hc2 : ((((collapseUnderscores (replaceUnsafe (host ++ path).data)).dropWhile
        (fun c => decide (c = '_'))).reverse.dropWhile (fun c => decide (c = '_'))).reverse).head? =
        some c := hc
    rw [List.head?_reverse] at hc2
    have hne : (((collapseUnderscores (replaceUnsafe (host ++ path).data)).dropWhile
        (fun c => decide (c = '_'))).reverse.dropWhile (fun c => decide (c = '_'))) ≠ [] := by
      intro h0
      rw [h0] at hc2
      simp at hc2
    rw [getLast?_dropWhile _ _ hne, List.getLast?_reverse] at hc2
    have := head?_dropWhile_not (fun c => decide (c = '_')) _ c hc2
    simpa using this
  · intro c hc
    have hc2 : ((((collapseUnderscores (replaceUnsafe (host ++ path).data)).dropWhile
        (fun c => decide (c = '_'))).reverse.dropWhile (fun c => decide (c = '_'))).reverse).getLast? =
        some c := hc
    rw [List.getLast?_reverse] at hc2
    have := head?_dropWhile_not (fun c => decide (c = '_')) _ c hc2
    simpa using this

theorem urlToDirectoryName_sanitized_witness :
    (urlToDirectoryName "example.com" "/csaf/v2//dir/").data.all isSafeChar = true ∧
    ('e' : Char) ≠ '_' :=
  ⟨(urlToDirectoryName_sanitized "example.com" "/csaf/v2//dir/").1,
   (urlToDirectoryName_sanitized "example.com" "/csaf/v2//dir/").2.2.1 'e' (by decide)⟩

/-- C2: contrary to the claim, `GetCSAFArchive` never inspects the HTTP
status code: for every status — including 404 and 500 — a response whose
body streams successfully is written to the destination file and the
call returns success.  (Divergence: the spec requires a fetch error on
any non-2xx response.) -/
theorem getCSAFArchive_ignores_status (status : Nat) (body : String) :
    GetCSAFArchive (fun _ => .response status body true)
      "https://x/a.tar.zst" "archive.tar.zst" ⟨⟨none, []⟩, [], []⟩ =
    (⟨⟨none, [("archive.tar.zst", body)]⟩, ["https://x/a.tar.zst"], []⟩, .ok ()) := by
  simp [GetCSAFArchive, setFile]

/-- C3: contrary to the claim, a row with fewer than two columns can
abort the whole parse: `encoding/csv` enforces the field count of the
first record, so `"a.json,<ts>\nb\n"` fails with a CSV error before the
skip branch is reached.  Blank lines, by contrast, are indeed skipped
silently (second conjunct). -/
theorem parseChangesCSV_short_row_aborts :
    ParseChangesCSV "a.json,2024-01-01T00:00:00Z\nb\n" =
      .error (.wrap "failed to parse changes.csv" .csvFieldCount) ∧
    ParseChangesCSV "a.json,2024-01-01T00:00:00Z\n\nb.json,2024-06-01T00:00:00Z\n" =
      .ok [("a.json", 1704067200), ("b.json", 1717200000)] := by
  constructor <;> rfl

/-- C7 counterexample: with two trailing slashes on the base,
`IndividualFiles`' URL construction leaves two slashes at the junction,
so the built URL is not the claimed one-slash normal form. -/
theorem buildFileURL_not_normalizing :
    buildFileURL "https://x/y//" "z.json" = "https://x/y//z.json" ∧
    buildFileURL "https://x/y//" "z.json" ≠
      oneSlashJoin "https://x/y//" "z.json" := by
  constructor <;> decide

theorem individualFilesLoop_blank (remote : Remote) (baseURL : String) :
    ∀ (paths : List String) (st : SyncState),
    (∀ fp ∈ paths, goTrimSpace fp = "") →
    individualFilesLoop remote baseURL paths st = (st, .ok ())
  | [], _, _ => rfl
  | fp :: rest, st, h => by
    simp only [individualFilesLoop]
    rw [if_pos (h fp (by simp))]
    exact individualFilesLoop_blank remote baseURL rest st (fun x hx => h x (by simp [hx]))

/-- C10: calling `IndividualFiles` with an empty path list, or with a
list whose entries are all empty or whitespace-only, returns success
immediately: the state is returned unchanged, so no URL is fetched, no
directory is created, and no file is written. -/
theorem individualFiles_blank_noop (remote : Remote) (baseURL : String)
    (filePaths : List String) (st : SyncState)
    (h : ∀ fp ∈ filePaths, goTrimSpace fp = "") :
    IndividualFiles remote baseURL filePaths st = (st, .ok ()) := by
  unfold IndividualFiles
  by_cases h0 : filePaths.length = 0
  · rw [if_pos h0]
  · rw [if_neg h0]
    exact individualFilesLoop_blank remote baseURL filePaths st h

theorem individualFiles_blank_noop_witness :
    IndividualFiles (fun _ => .transportError) "https://x/y"
      ["", " ", "\t"] ⟨⟨none, []⟩, [], []⟩ = (⟨⟨none, []⟩, [], []⟩, .ok ()) :=
  individualFiles_blank_noop _ _ _ _ (by decide)

theorem goTrimSuffix_slash_of_not (b : String) (hb : strHasSuffix b "/" = false) :
    goTrimSuffix b "/" = b := by
  unfold goTrimSuffix
  rw [hb]
  rfl

theorem goTrimStart_slash_of_not (q : String) (hq : strHasStart q "/" = false) :
    goTrimStart q "/" = q := by
  unfold goTrimStart
  rw [hq]
  rfl

theorem goTrimSuffix_slash_append (b : String) : goTrimSuffix (b ++ "/") "/" = b := by
  have hdata : (b ++ "/").data = b.data ++ ['/'] := rfl
  have hcond : strHasSuffix (b ++ "/") "/" = true := by
    unfold strHasSuffix
    rw [decide_eq_true_eq]
    constructor
    · rw [hdata]
      simp
    · rw [hdata]
      show (b.data ++ ['/']).drop ((b.data ++ ['/']).length - 1) = ['/']
      have hl : (b.data ++ ['/']).length - 1 = b.data.length := by simp
      rw [hl]
      exact List.drop_left b.data ['/']
  unfold goTrimSuffix
  rw [hcond]
  show String.mk (((b ++ "/").data).take (((b ++ "/").data).length - 1)) = b
  rw [hdata]
  have hl : (b.data ++ ['/']).length - 1 = b.data.length := by simp
  rw [hl, List.take_left]

theorem goTrimStart_slash_append (q : String) : goTrimStart ("/" ++ q) "/" = q := by
  have hdata : ("/" ++ q).data = '/' :: q.data := rfl
  have hcond : strHasStart ("/" ++ q) "/" = true := by
    unfold strHasStart
    rw [decide_eq_true_eq, hdata]
    rfl
  unfold goTrimStart
  rw [hcond]
  show String.mk ((("/" ++ q).data).drop 1) = q
  rw [hdata]
  rfl

/-- C7 (amended): the URL construction in `IndividualFiles` strips at
most one trailing slash from the base and at most one leading slash from
the path; for a base with at most one trailing slash and a path with at
most one leading slash the two are therefore joined by exactly one
slash, and in particular the scenario
`baseURL = "https://x/y/"`, `path = "/z.json"` requests exactly
`"https://x/y/z.json"`, which is the URL `IndividualFiles` fetches. -/
theorem buildFileURL_single_slash (b q : String)
    (hb : strHasSuffix b "/" = false) (hq : strHasStart q "/" = false) :
    buildFileURL b q = b ++ "/" ++ q ∧
    buildFileURL (b ++ "/") q = b ++ "/" ++ q ∧
    buildFileURL b ("/" ++ q) = b ++ "/" ++ q ∧
    buildFileURL (b ++ "/") ("/" ++ q) = b ++ "/" ++ q ∧
    buildFileURL "https://x/y/" "/z.json" = "https://x/y/z.json" ∧
    (∀ (remote : Remote) (st : SyncState),
      (IndividualFiles remote "https://x/y/" ["/z.json"] st).1.fetchTrace =
        st.fetchTrace ++ ["https://x/y/z.json"]) := by
  refine ⟨?_, ?_, ?_, ?_, by rfl, ?_⟩
  · unfold buildFileURL
    rw [goTrimSuffix_slash_of_not b hb, goTrimStart_slash_of_not q hq]
  · unfold buildFileURL
    rw [goTrimSuffix_slash_append b, goTrimStart_slash_of_not q hq]
  · unfold buildFileURL
    rw [goTrimSuffix_slash_of_not b hb, goTrimStart_slash_append q]
  · unfold buildFileURL
    rw [goTrimSuffix_slash_append b, goTrimStart_slash_append q]
  · intro remote st
    show (individualFilesLoop remote "https://x/y/" ["/z.json"] st).1.fetchTrace =
      st.fetchTrace ++ ["https://x/y/z.json"]
    simp only [individualFilesLoop]
    rw [if_neg (by decide)]
    cases hr : remote (buildFileURL "https://x/y/" "/z.json") with
    | transportError => rfl
    | response status body bodyOk =>
      dsimp only
      by_cases hs : status ≠ 200
      · rw [if_pos hs]
        rfl
      · rw [if_neg hs]
        cases bodyOk with
        | true => rfl
        | false => rfl

theorem buildFileURL_single_slash_witness :
    buildFileURL ("https://x/y" ++ "/") "z.json" = "https://x/y" ++ "/" ++ "z.json" :=
  (buildFileURL_single_slash "https://x/y" "z.json" (by decide) (by decide)).2.1

theorem nodupKeys_mapInsert (m : List (String × Int)) (k : String) (v : Int)
    (h : (m.map Prod.fst).Nodup) : ((mapInsert m k v).map Prod.fst).Nodup := by
  unfold mapInsert
  by_cases hmem : m.any (fun e => decide (e.1 = k)) = true
  · rw [if_pos hmem]
    have heq : (m.map (fun e => if e.1 = k then (k, v) else e)).map Prod.fst =
        m.map Prod.fst := by
      rw [List.map_map]
      apply List.map_congr_left
      intro e _
      by_cases he : e.1 = k
      · simp [Function.comp, he]
      · simp [Function.comp, he]
    rw [heq]
    exact h
  · rw [if_neg hmem]
    rw [List.map_append]
    have hk : k ∉ m.map Prod.fst := by
      intro hkmem
      apply hmem
      rw [List.any_eq_true]
      obtain ⟨e, hem, he⟩ := List.mem_map.mp hkmem
      exact ⟨e, hem, by simp [he]⟩
    simp only [List.map_cons, List.map_nil]
    rw [List.nodup_append]
    refine ⟨h, List.nodup_singleton k, ?_⟩
    intro a ha hamem
    rw [List.mem_singleton] at hamem
    exact hk (hamem ▸ ha)

theorem parseChangesLoop_nodupKeys :
    ∀ (records : List (List String)) (acc m : List (String × Int)),
    (acc.map Prod.fst).Nodup → parseChangesLoop records acc = .ok m →
    (m.map Prod.fst).Nodup
  | [], acc, m, h, hok => by
    simp only [parseChangesLoop] at hok
    cases hok
    exact h
  | record :: rest, acc, m, h, hok => by
    simp only [parseChangesLoop] at hok
    by_cases h1 : record.length = 0 ∨ (record.length = 1 ∧ goTrimSpace (record.headD "") = "")
    · rw [if_pos h1] at hok
      exact parseChangesLoop_nodupKeys rest acc m h hok
    · rw [if_neg h1] at hok
      by_cases h2 : record.length < 2
      · rw [if_pos h2] at hok
        exact parseChangesLoop_nodupKeys rest acc m h hok
      · rw [if_neg h2] at hok
        cases hv : parseRFC3339 (record.getD 1 "") with
        | none =>
          rw [hv] at hok
          cases hok
        | some t =>
          rw [hv] at hok
          exact parseChangesLoop_nodupKeys rest _ m
            (nodupKeys_mapInsert acc (record.getD 0 "") t h) hok

theorem parseChangesCSV_nodupKeys (data : String) (m : List (String × Int))
    (h : ParseChangesCSV data = .ok m) : (m.map Prod.fst).Nodup := by
  unfold ParseChangesCSV at h
  cases hcsv : csvReadAll data with
  | error e =>
    rw [hcsv] at h
    cases h
  | ok records =>
    rw [hcsv] at h
    exact parseChangesLoop_nodupKeys records [] m (by simp) h

theorem mem_changedFileSet_keys {m : List (String × Int)} {t : Int} {p : String}
    (h : p ∈ changedFileSet m t) : p ∈ m.map Prod.fst := by
  unfold changedFileSet at h
  obtain ⟨e, he, rfl⟩ := List.mem_map.mp h
  exact List.mem_map.mpr ⟨e, (List.mem_filter.mp he).1, rfl⟩

theorem mem_changedFileSet : ∀ (m : List (String × Int)) (t : Int) (p : String),
    (m.map Prod.fst).Nodup →
    (p ∈ changedFileSet m t ↔ ∃ ts, mapLookup m p = some ts ∧ t < ts)
  | [], t, p, _ => by simp [changedFileSet, mapLookup]
  | (k, v) :: rest, t, p, h => by
    simp only [List.map_cons, List.nodup_cons] at h
    obtain ⟨hk, hrest⟩ := h
    by_cases hkp : k = p
    · subst hkp
      have hlook : mapLookup ((k, v) :: rest) k = some v := by
        simp [mapLookup]
      by_cases htv : t < v
      · have hset : changedFileSet ((k, v) :: rest) t = k :: changedFileSet rest t := by
          unfold changedFileSet
          rw [List.filter_cons, if_pos (by simpa using htv)]
          rfl
        rw [hset, hlook]
        constructor
        · intro _
          exact ⟨v, rfl, htv⟩
        · intro _
          exact List.mem_cons_self k _
      · have hset : changedFileSet ((k, v) :: rest) t = changedFileSet rest t := by
          unfold changedFileSet
          rw [List.filter_cons, if_neg (by simpa using htv)]
        rw [hset, hlook]
        constructor
        · intro hmem
          exact absurd (mem_changedFileSet_keys hmem) hk
        · rintro ⟨ts, hts, hlt⟩
          cases hts
          exact absurd hlt htv
    · have hstep : changedFileSet ((k, v) :: rest) t = changedFileSet rest t ∨
          changedFileSet ((k, v) :: rest) t = k :: changedFileSet rest t := by
        unfold changedFileSet
        rw [List.filter_cons]
        by_cases htv : t < v
        · right
          rw [if_pos (by simpa using htv)]
          rfl
        · left
          rw [if_neg (by simpa using htv)]
      have hlook : mapLookup ((k, v) :: rest) p = mapLookup rest p := by
        simp only [mapLookup, if_neg hkp]
      rw [hlook]
      rcases hstep with heq | heq <;> rw [heq]
      · exact mem_changedFileSet rest t p hrest
      · rw [List.mem_cons]
        constructor
        · rintro (rfl | hmem)
          · exact absurd rfl hkp
          · exact (mem_changedFileSet rest t p hrest).mp hmem
        · intro hex
          exact Or.inr ((mem_changedFileSet rest t p hrest).mpr hex)

/-- C5: the incremental update computes the changed-file set as exactly
the paths whose logged timestamp is strictly after `lastSync`
(membership characterization under the parser's duplicate-free keys),
and on the spec's concrete scenario — rows
`a.json ↦ 2024-01-01T00:00:00Z`, `b.json ↦ 2024-06-01T00:00:00Z` with
`lastSync = 2024-03-01T00:00:00Z` — the set is exactly `{b.json}`, and
`PerformIncrementalUpdate` fetches exactly `b.json`. -/
theorem incremental_changed_set (data : String) (m : List (String × Int))
    (lastSync : Int) (h : ParseChangesCSV data = .ok m) :
    (∀ p, p ∈ changedFileSet m lastSync ↔
      ∃ ts, mapLookup m p = some ts ∧ lastSync < ts) ∧
    ParseChangesCSV "a.json,2024-01-01T00:00:00Z\nb.json,2024-06-01T00:00:00Z\n" =
      .ok [("a.json", 1704067200), ("b.json", 1717200000)] ∧
    parseRFC3339 "2024-03-01T00:00:00Z" = some 1709251200 ∧
    changedFileSet [("a.json", 1704067200), ("b.json", 1717200000)] 1709251200 =
      ["b.json"] ∧
    PerformIncrementalUpdate
      (fun u => if u = "https://x/y/changes.csv" then
          .response 200 "a.json,2024-01-01T00:00:00Z\nb.json,2024-06-01T00:00:00Z\n" true
        else if u = "https://x/y/b.json" then .response 200 "b-body" true
        else .transportError)
      "https://x/y" 1709251200 ⟨⟨none, []⟩, [], []⟩ =
      (⟨⟨none, [("b.json", "b-body")]⟩,
        ["https://x/y/changes.csv", "https://x/y/b.json"], ["b.json"]⟩, .ok ()) := by
  refine ⟨?_, by rfl, by rfl, by rfl, by rfl⟩
  intro p
  exact mem_changedFileSet m lastSync p (parseChangesCSV_nodupKeys data m h)

theorem incremental_changed_set_witness :
    "b.json" ∈ changedFileSet [("a.json", 1704067200), ("b.json", 1717200000)]
        1709251200 ↔
      ∃ ts, mapLookup [("a.json", 1704067200), ("b.json", 1717200000)] "b.json" =
        some ts ∧ 1709251200 < ts :=
  (incremental_changed_set "a.json,2024-01-01T00:00:00Z\nb.json,2024-06-01T00:00:00Z\n"
    [("a.json", 1704067200), ("b.json", 1717200000)] 1709251200 (by rfl)).1 "b.json"

/-- C6: an incremental sync whose computed changed-file set is empty
succeeds as a no-op — no file is fetched (the trace grows only by the
`changes.csv` fetch), no file or directory is touched — and the metadata
record is still overwritten with `lastSync = now` and
`sourceURL = directoryURL`, exactly as after a non-empty sync. -/
theorem noop_incremental_refreshes_metadata (remote : Remote)
    (decode : String → Option (List (String × String))) (now : Int)
    (url : String) (st : SyncState) (md : SyncMetadata) (body : String)
    (m : List (String × Int))
    (hmd : st.dir.metadata = some md)
    (hfresh : ¬ (md.lastSync < now - threeWeeksSecs))
    (hremote : remote (goTrimSuffix url "/" ++ "/changes.csv") = .response 200 body true)
    (hparse : ParseChangesCSV body = .ok m)
    (hempty : changedFileSet m md.lastSync = []) :
    FromDirectoryURL remote decode now url st =
      ({ st with
          dir := { st.dir with metadata := some ⟨now, url⟩ },
          fetchTrace := st.fetchTrace ++ [goTrimSuffix url "/" ++ "/changes.csv"] },
        .ok ()) := by
  have hv : IsValidCache now (.ok st.dir.metadata) = .ok (true, some md) := by
    rw [hmd]
    unfold IsValidCache
    dsimp only
    rw [if_neg hfresh]
  have hf : fetchResource remote (goTrimSuffix url "/" ++ "/changes.csv") false st =
      ({ st with fetchTrace := st.fetchTrace ++ [goTrimSuffix url "/" ++ "/changes.csv"] },
        .ok (body, false)) := by
    unfold fetchResource
    rw [hremote]
    dsimp only
    rw [if_neg (by simp), if_neg (by simp)]
    rfl
  have hp : PerformIncrementalUpdate remote url md.lastSync st =
      ({ st with fetchTrace := st.fetchTrace ++ [goTrimSuffix url "/" ++ "/changes.csv"] },
        .ok ()) := by
    unfold PerformIncrementalUpdate
    dsimp only
    rw [hf]
    dsimp only
    rw [hparse]
    dsimp only
    rw [hempty]
    rfl
  unfold FromDirectoryURL
  rw [hv]
  dsimp only
  rw [hp]

theorem noop_incremental_refreshes_metadata_witness :
    FromDirectoryURL
      (fun u => if u = "https://x/y/changes.csv" then
          .response 200 "a.json,2024-01-01T00:00:00Z\n" true
        else .transportError)
      (fun _ => none) 1709251201 "https://x/y"
      ⟨⟨some ⟨1709251200, "https://x/y"⟩, [("f.json", "x")]⟩, [], []⟩ =
    (⟨⟨some ⟨1709251201, "https://x/y"⟩, [("f.json", "x")]⟩,
      ["https://x/y/changes.csv"], []⟩, .ok ()) := by
  rw [noop_incremental_refreshes_metadata _ _ _ _ _ ⟨1709251200, "https://x/y"⟩
    "a.json,2024-01-01T00:00:00Z\n" [("a.json", 1704067200)]
    rfl (by decide) rfl rfl rfl]
  rfl

/-- C8: during a full sync (no usable cache), a 404 on the
`archive_latest.txt` probe is not an error — the orchestrator proceeds
exactly to the listing-fallback path — whereas any non-2xx status other
than 404, or a transport failure, on the probe fails the whole sync. -/
theorem archive_probe_404_fallback (remote : Remote)
    (decode : String → Option (List (String × String))) (now : Int)
    (url : String) (st : SyncState)
    (hmeta : st.dir.metadata = none) :
    (∀ body bodyOk,
      remote (goTrimSuffix url "/" ++ "/archive_latest.txt") = .response 404 body bodyOk →
      FromDirectoryURL remote decode now url st =
        listingFallback remote now url
          { st with
            dir := { metadata := none, files := [] },
            fetchTrace := st.fetchTrace ++ [goTrimSuffix url "/" ++ "/archive_latest.txt"] }) ∧
    (∀ status body bodyOk,
      remote (goTrimSuffix url "/" ++ "/archive_latest.txt") = .response status body bodyOk →
      status ≠ 404 → ¬ (200 ≤ status ∧ status < 300) →
      FromDirectoryURL remote decode now url st =
        ({ st with
           dir := { metadata := none, files := [] },
           fetchTrace := st.fetchTrace ++ [goTrimSuffix url "/" ++ "/archive_latest.txt"] },
          .error (.wrap "failed to fetch archive_latest.txt"
            (.httpStatus (goTrimSuffix url "/" ++ "/archive_latest.txt") status)))) ∧
    (remote (goTrimSuffix url "/" ++ "/archive_latest.txt") = .transportError →
      FromDirectoryURL remote decode now url st =
        ({ st with
           dir := { metadata := none, files := [] },
           fetchTrace := st.fetchTrace ++ [goTrimSuffix url "/" ++ "/archive_latest.txt"] },
          .error (.wrap "failed to fetch archive_latest.txt"
            (.transport (goTrimSuffix url "/" ++ "/archive_latest.txt"))))) := by
  have hv : IsValidCache now (.ok st.dir.metadata) = .ok (false, none) := by
    rw [hmeta]
    rfl
  refine ⟨?_, ?_, ?_⟩
  · intro body bodyOk hrem
    unfold FromDirectoryURL
    rw [hv]
    dsimp only
    unfold fullSync
    dsimp only
    unfold fetchResource
    rw [hrem]
    dsimp only
    rw [if_pos ⟨rfl, rfl⟩]
    dsimp only
    rw [if_neg (by simp)]
  · intro status body bodyOk hrem h404 h2xx
    have h200 : status ≠ 200 := by omega
    unfold FromDirectoryURL
    rw [hv]
    dsimp only
    unfold fullSync
    dsimp only
    unfold fetchResource
    rw [hrem]
    dsimp only
    rw [if_neg (by simp [h404]), if_pos h200]
  · intro hrem
    unfold FromDirectoryURL
    rw [hv]
    dsimp only
    unfold fullSync
    dsimp only
    unfold fetchResource
    rw [hrem]

theorem archive_probe_404_fallback_witness :
    FromDirectoryURL
      (fun u => if u = "https://x/y/archive_latest.txt" then .response 404 "" true
        else .transportError)
      (fun _ => none) 5 "https://x/y" ⟨⟨none, []⟩, [], []⟩ =
      listingFallback
        (fun u => if u = "https://x/y/archive_latest.txt" then .response 404 "" true
          else .transportError)
        5 "https://x/y" ⟨⟨none, []⟩, ["https://x/y/archive_latest.txt"], []⟩ ∧
    FromDirectoryURL
      (fun u => if u = "https://x/y/archive_latest.txt" then .response 500 "" true
        else .transportError)
      (fun _ => none) 5 "https://x/y" ⟨⟨none, []⟩, [], []⟩ =
      (⟨⟨none, []⟩, ["https://x/y/archive_latest.txt"], []⟩,
        .error (.wrap "failed to fetch archive_latest.txt"
          (.httpStatus "https://x/y/archive_latest.txt" 500))) :=
  ⟨(archive_probe_404_fallback
      (fun u => if u = "https://x/y/archive_latest.txt" then .response 404 "" true
        else .transportError)
      (fun _ => none) 5 "https://x/y" ⟨⟨none, []⟩, [], []⟩ rfl).1 "" true rfl,
   (archive_probe_404_fallback
      (fun u => if u = "https://x/y/archive_latest.txt" then .response 500 "" true
        else .transportError)
      (fun _ => none) 5 "https://x/y" ⟨⟨none, []⟩, [], []⟩ rfl).2.1 500 "" true rfl
      (by decide) (by decide)⟩

end Csafx
